import Mathlib

/-!
Verification of the MONAILabel deepedit guidance transforms
(`monailabel/deepedit/transforms.py`).

The Python code works on numpy arrays.  We embed an n-dimensional array as a
flat list of rationals in C order together with its shape, and give executable
models of the numpy/scipy primitives the code uses:

* `distance_transform_cdt` (scipy, default chessboard metric): for a foreground
  voxel (value ≠ 0) the distance to the nearest background voxel (value 0);
  0 on background voxels.  When the array has no background voxel at all we
  return the sentinel `data.length + 1`; only the fact that foreground values
  are ≥ 1 is relied on, matching scipy's behaviour.
* `R.choice(items, p=…)`: numpy draws a uniform sample `u ∈ [0,1)` and picks
  the item at the first position where `u` falls below the running sum of the
  probability vector (clamping to the last item).  We make the uniform draw an
  explicit parameter `u : ℚ`.
* `np.exp` is transcendental, so the embedding is parametric in a function
  `e : ℚ → ℚ` standing for `exp`; theorems that need analytic facts about
  `exp` (such as `exp x > 1` for `x ≥ 1`) take them as hypotheses on `e`.

Randomised methods take their uniform draws as explicit `ℚ` arguments; the
mutable `is_pos` / `is_neg` fields of the transform objects are threaded as an
explicit `Flags` state.
-/

/-- An n-dimensional numpy array: C-order flat data plus shape, with the
length invariant. -/
structure NDArr where
  shape : List ℕ
  data : List ℚ
  hlen : data.length = shape.prod

/-- Multi-index of flat position `k` in C order for the given shape
(`np.unravel_index`). -/
def unravel : List ℕ → ℕ → List ℕ
  | [], _ => []
  | _ :: rest, k => (k / rest.prod) :: unravel rest (k % rest.prod)

/-- Chessboard distance between two multi-indices (the metric of scipy's
`distance_transform_cdt` default). -/
def chebDist (i j : List ℕ) : ℕ :=
  (List.zipWith (fun a b => max (a - b) (b - a)) i j).foldr max 0

/-- Flat positions of the background (zero-valued) voxels. -/
def bgIndices (a : NDArr) : List ℕ :=
  (List.range a.data.length).filter (fun k => a.data.getD k 0 = 0)

/-- Value of the chamfer (chessboard) distance transform at flat position `k`:
0 on background voxels, distance to the nearest background voxel on foreground
voxels, `data.length + 1` when there is no background voxel. -/
def cdtAt (a : NDArr) (k : ℕ) : ℚ :=
  if a.data.getD k 0 = 0 then 0
  else (((bgIndices a).map
      (fun j => (chebDist (unravel a.shape k) (unravel a.shape j) : ℚ))).foldr
      min ((a.data.length : ℚ) + 1))

/-- The distance transform of the whole array, flattened
(`distance_transform_cdt(a).flatten()`). -/
def cdt (a : NDArr) : List ℚ :=
  (List.range a.data.length).map (cdtAt a)

/-- Position selected by a cumulative-sum weighted draw: the first index where
the uniform sample `u` drops below the running sum of the weights, clamped to
the last position (numpy's inverse-cdf sampling). -/
def pickIdx : List ℚ → ℚ → ℕ
  | [], _ => 0
  | [_], _ => 0
  | w :: ws, u => if u < w then 0 else pickIdx ws (u - w) + 1

/-- Model of `R.choice(items, size=1, p=ws)[0]` with uniform draw `u`. -/
def npChoice (items : List ℕ) (ws : List ℚ) (u : ℚ) : ℕ :=
  items.getD (pickIdx ws u) 0

/-- Model of `R.choice([True, False], p=[p, 1-p])` with uniform draw `u`. -/
def npBoolChoice (p u : ℚ) : Bool :=
  decide (u < p)

/-- Model of `np.sum` of an array. -/
def npSum (a : NDArr) : ℚ := a.data.sum

/-- Model of `np.where(a.flatten() > 0)[0]`: flat positions of strictly positive
voxels. -/
def posIndices (a : NDArr) : List ℕ :=
  (List.range a.data.length).filter (fun i => decide (0 < a.data.getD i 0))

/-- Model of `astype(int)` on a float value: truncation toward zero. -/
def npTrunc (q : ℚ) : ℤ :=
  if q < 0 then ⌈q⌉ else ⌊q⌋

namespace AddRandomGuidanced

/-- Embedding of `AddRandomGuidanced.find_guidance` (transforms.py lines 128–141), with
`np.exp` as the parameter `e` and the uniform draw of `R.choice` as `u`. -/
def find_guidance (e : ℚ → ℚ) (discrepancy : NDArr) (weight_map : Option NDArr)
    (u : ℚ) : Option (List ℚ) :=
  let distance := cdt discrepancy
  let weighted_distance :=
    match weight_map with
    | some w => List.zipWith (· * ·) distance w.data
    | none => distance
  let probability := weighted_distance.map (fun x => e x - 1)
  let idx := posIndices discrepancy
  if 0 < discrepancy.data.countP (fun x => decide (0 < x)) then
    let seed := npChoice idx
      (idx.map (fun i =>
        probability.getD i 0 / (idx.map (fun j => probability.getD j 0)).sum)) u
    let dst := weighted_distance.getD seed 0
    let g := (unravel discrepancy.shape seed).map (fun (n : ℕ) => (n : ℚ))
    some (g.set 0 dst)
  else none

end AddRandomGuidanced

namespace PosNegClickProbAddRandomGuidanced

/-- Embedding of `PosNegClickProbAddRandomGuidanced.find_guidance` (transforms.py lines
225–238), a second copy of the same routine. -/
def find_guidance (e : ℚ → ℚ) (discrepancy : NDArr) (weight_map : Option NDArr)
    (u : ℚ) : Option (List ℚ) :=
  let distance := cdt discrepancy
  let weighted_distance :=
    match weight_map with
    | some w => List.zipWith (· * ·) distance w.data
    | none => distance
  let probability := weighted_distance.map (fun x => e x - 1)
  let idx := posIndices discrepancy
  if 0 < discrepancy.data.countP (fun x => decide (0 < x)) then
    let seed := npChoice idx
      (idx.map (fun i =>
        probability.getD i 0 / (idx.map (fun j => probability.getD j 0)).sum)) u
    let dst := weighted_distance.getD seed 0
    let g := (unravel discrepancy.shape seed).map (fun (n : ℕ) => (n : ℚ))
    some (g.set 0 dst)
  else none

end PosNegClickProbAddRandomGuidanced

/-- The sampling routine exactly as the spec words it, for the
`weight_map = None` case: (1) chamfer distance transform of the mask,
(2) weight `exp(distance) - 1` per voxel, (3) one flat index drawn from the
positions where the flattened mask is > 0, with probability proportional to
that weight normalised over those positions; `none` when the mask has no
positive voxel. -/
def specSelectSeed (e : ℚ → ℚ) (mask : NDArr) (u : ℚ) : Option ℕ :=
  let d := cdt mask
  let w : ℕ → ℚ := fun i => e (d.getD i 0) - 1
  let idx := posIndices mask
  if idx = [] then none
  else some (npChoice idx (idx.map (fun i => w i / (idx.map w).sum)) u)

/-- The click-like point `find_guidance` builds from a seed: the multi-index
of the seed with component 0 overwritten by the weighted distance there. -/
def seedPoint (mask : NDArr) (s : ℕ) : List ℚ :=
  ((unravel mask.shape s).map (fun (n : ℕ) => (n : ℚ))).set 0 ((cdt mask).getD s 0)

/-- The `weighted_distance` array of `find_guidance` (lines 129–130): the
flattened distance transform, multiplied elementwise by the weight map when
one is supplied. -/
def weightedDist (mask : NDArr) (weight_map : Option NDArr) : List ℚ :=
  match weight_map with
  | some w => List.zipWith (· * ·) (cdt mask) w.data
  | none => cdt mask

/-- The click-like point `find_guidance` builds from a seed for an arbitrary
weight map: the multi-index of the seed with component 0 overwritten by the
weighted distance at the seed (`g[0] = dst[0]`). -/
def seedPointW (mask : NDArr) (weight_map : Option NDArr) (s : ℕ) : List ℚ :=
  ((unravel mask.shape s).map (fun (n : ℕ) => (n : ℚ))).set 0
    ((weightedDist mask weight_map).getD s 0)

/-- The mutable `is_pos` / `is_neg` fields of a guidance transform instance,
threaded explicitly. -/
structure Flags where
  is_pos : Bool
  is_neg : Bool
deriving DecidableEq

/-- A guidance record: the pair (positive points, negative points) of
documented shape `(2, N, #dim)`. -/
abbrev GuidQ := List (List ℚ) × List (List ℚ)

/-- The value stored under the guidance key.  The code accepts a numpy array,
a JSON string, or a plain list (transforms.py lines 163–164); a JSON string is
represented by the integer array it encodes. -/
inductive GuidanceVal
  | arr (g : GuidQ)
  | jstr (g : List (List ℤ) × List (List ℤ))
  | lst (g : GuidQ)
deriving DecidableEq

/-- Lines 163–164: `tolist()` on an array, `json.loads` on a string, a list
unchanged. -/
def decodeGuidance : GuidanceVal → GuidQ
  | .arr g => g
  | .jstr g => (g.1.map (fun p => p.map (fun (z : ℤ) => (z : ℚ))),
                g.2.map (fun p => p.map (fun (z : ℤ) => (z : ℚ))))
  | .lst g => g

/-- Model of `astype(int)` on a point. -/
def truncPoint (p : List ℚ) : List ℤ := p.map npTrunc

/-- Model of `np.asarray(guidance).astype(int).tolist()` on the guidance pair. -/
def truncGuid (g : GuidQ) : List (List ℤ) × List (List ℤ) :=
  (g.1.map truncPoint, g.2.map truncPoint)

/-- Python truthiness of `find_guidance`'s result: `if pos:` is taken when the
value is neither `None` nor an empty list. -/
def truthy : Option (List ℚ) → Bool
  | none => false
  | some l => !l.isEmpty

/-- The entries of the data dict a guidance transform's `__call__` reads. -/
structure CallInput where
  guidance : GuidanceVal
  discrepancy : NDArr × NDArr
  weight_map : Option NDArr
  probability : ℚ

/-- The entries of the data dict a guidance transform's `__call__` writes. -/
structure CallOutput where
  guidance : GuidanceVal
  is_pos : Bool
  is_neg : Bool
deriving DecidableEq

namespace AddRandomGuidanced

/-- Embedding of `AddRandomGuidanced.add_guidance` (lines 143–160). -/
def add_guidance (e : ℚ → ℚ) (discrepancy : NDArr × NDArr)
    (weight_map : Option NDArr) (will_interact : Bool) (u : ℚ) :
    Option (List ℚ) × Option (List ℚ) :=
  if !will_interact then (none, none)
  else
    let pos_discr := discrepancy.1
    let neg_discr := discrepancy.2
    let can_be_positive := decide (0 < npSum pos_discr)
    let can_be_negative := decide (0 < npSum neg_discr)
    let correct_pos := decide (npSum neg_discr ≤ npSum pos_discr)
    if correct_pos && can_be_positive then
      (find_guidance e pos_discr weight_map u, none)
    else if !correct_pos && can_be_negative then
      (none, find_guidance e neg_discr weight_map u)
    else (none, none)

/-- Embedding of `AddRandomGuidanced._apply` (lines 162–174); the instance flags are the
explicit state `st`. -/
def applyG (e : ℚ → ℚ) (guidance : GuidanceVal) (discrepancy : NDArr × NDArr)
    (weight_map : Option NDArr) (will_interact : Bool) (u : ℚ) (st : Flags) :
    GuidanceVal × Flags :=
  let g := decodeGuidance guidance
  let pn := add_guidance e discrepancy weight_map will_interact u
  let gs :=
    if truthy pn.1 then
      ((g.1 ++ [pn.1.getD []],
        g.2 ++ [List.replicate (pn.1.getD []).length (-1 : ℚ)]),
       { st with is_pos := true })
    else (g, st)
  let gs :=
    if truthy pn.2 then
      ((gs.1.1 ++ [List.replicate (pn.2.getD []).length (-1 : ℚ)],
        gs.1.2 ++ [pn.2.getD []]),
       { gs.2 with is_neg := true })
    else gs
  (.jstr (truncGuid gs.1), gs.2)

/-- Embedding of `AddRandomGuidanced.__call__` (lines 176–187): `uI` is the uniform draw of
`randomize`, `uS` the one of `find_guidance`. -/
def call (e : ℚ → ℚ) (inp : CallInput) (st : Flags) (uI uS : ℚ) :
    CallOutput × Flags :=
  let will_interact := npBoolChoice inp.probability uI
  let r := applyG e inp.guidance inp.discrepancy inp.weight_map will_interact uS st
  ({ guidance := r.1, is_pos := r.2.is_pos, is_neg := r.2.is_neg },
   { is_pos := false, is_neg := false })

end AddRandomGuidanced

namespace PosNegClickProbAddRandomGuidanced

/-- Embedding of `PosNegClickProbAddRandomGuidanced.add_guidance` (lines 240–266): `uC` is
the uniform draw deciding `correct_pos`. -/
def add_guidance (e : ℚ → ℚ) (pos_click_probability : ℚ)
    (discrepancy : NDArr × NDArr) (weight_map : Option NDArr)
    (will_interact : Bool) (uC u : ℚ) : Option (List ℚ) × Option (List ℚ) :=
  if !will_interact then (none, none)
  else
    let pos_discr := discrepancy.1
    let neg_discr := discrepancy.2
    let can_be_positive := decide (0 < npSum pos_discr)
    let can_be_negative := decide (0 < npSum neg_discr)
    let correct_pos := npBoolChoice pos_click_probability uC
    if can_be_positive && !can_be_negative then
      (find_guidance e pos_discr weight_map u, none)
    else if !can_be_positive && can_be_negative then
      (none, find_guidance e neg_discr weight_map u)
    else if correct_pos && can_be_positive then
      (find_guidance e pos_discr weight_map u, none)
    else if !correct_pos && can_be_negative then
      (none, find_guidance e neg_discr weight_map u)
    else (none, none)

/-- Embedding of `PosNegClickProbAddRandomGuidanced._apply` (lines 268–280). -/
def applyG (e : ℚ → ℚ) (pos_click_probability : ℚ) (guidance : GuidanceVal)
    (discrepancy : NDArr × NDArr) (weight_map : Option NDArr)
    (will_interact : Bool) (uC u : ℚ) (st : Flags) : GuidanceVal × Flags :=
  let g := decodeGuidance guidance
  let pn := add_guidance e pos_click_probability discrepancy weight_map
    will_interact uC u
  let gs :=
    if truthy pn.1 then
      ((g.1 ++ [pn.1.getD []],
        g.2 ++ [List.replicate (pn.1.getD []).length (-1 : ℚ)]),
       { st with is_pos := true })
    else (g, st)
  let gs :=
    if truthy pn.2 then
      ((gs.1.1 ++ [List.replicate (pn.2.getD []).length (-1 : ℚ)],
        gs.1.2 ++ [pn.2.getD []]),
       { gs.2 with is_neg := true })
    else gs
  (.jstr (truncGuid gs.1), gs.2)

/-- Embedding of `PosNegClickProbAddRandomGuidanced.__call__` (lines 282–293). -/
def call (e : ℚ → ℚ) (pos_click_probability : ℚ) (inp : CallInput) (st : Flags)
    (uI uC uS : ℚ) : CallOutput × Flags :=
  let will_interact := npBoolChoice inp.probability uI
  let r := applyG e pos_click_probability inp.guidance inp.discrepancy
    inp.weight_map will_interact uC uS st
  ({ guidance := r.1, is_pos := r.2.is_pos, is_neg := r.2.is_neg },
   { is_pos := false, is_neg := false })

end PosNegClickProbAddRandomGuidanced

/-- A channel of a `(C, H, W, D)` image volume. -/
abbrev Channel := List (List (List ℚ))

/-- A `(C, H, W, D)` image volume as its list of channels. -/
abbrev Image := List Channel

/-- An all-zero channel of the given spatial dimensions (the broadcast of
`np.zeros((1, H, W, D))` into one channel slot). -/
def zeroCh (h w d : ℕ) : Channel :=
  List.replicate h (List.replicate w (List.replicate d (0 : ℚ)))

namespace DiscardAddGuidanced

/-- Value of `image.shape[-3]` for a rectangular `(C, H, W, D)` volume. -/
def imgH (image : Image) : ℕ := (image.getD 0 []).length

/-- Value of `image.shape[-2]`. -/
def imgW (image : Image) : ℕ := ((image.getD 0 []).getD 0 []).length

/-- Value of `image.shape[-1]`. -/
def imgD (image : Image) : ℕ := (((image.getD 0 []).getD 0 []).getD 0 []).length

/-- Embedding of `DiscardAddGuidanced._apply` (lines 47–57): `rnd` is the boolean drawn by
`np.random.choice` on line 48, which Python's `or` only consults when
`discard_probability < 1`. -/
def applyD (number_intensity_ch : ℕ) (discard_probability : ℚ) (rnd : Bool)
    (image : Image) : Image :=
  if decide (1 ≤ discard_probability) || rnd then
    let signal := zeroCh (imgH image) (imgW image) (imgD image)
    if image.length = number_intensity_ch + 2 then
      (image.set number_intensity_ch signal).set (number_intensity_ch + 1) signal
    else image ++ [signal, signal]
  else image

end DiscardAddGuidanced

/-- The metadata dict of a volume, restricted to the fields the transforms
touch. -/
structure MetaD where
  pixdim : List ℚ
  dim : List ℚ
deriving DecidableEq

/-- The entries of the data dict `SingleLabelSingleModalityd` reads and
writes.  The label is kept flattened: the label branch acts voxelwise. -/
structure RecD where
  label : List ℚ
  label_meta : MetaD
  image : NDArr
  image_meta : MetaD

/-- Model of `np.ndarray.max()` of a flattened array (junk value 0 on the empty
array, on which numpy raises). -/
def npMax (l : List ℚ) : ℚ := l.foldl max (l.headD 0)

/-- Model of `image[..., 0]`: drop the last axis, keeping last-axis index 0. -/
def sliceLast0 (a : NDArr) : NDArr where
  shape := a.shape.dropLast
  data := (List.range a.shape.dropLast.prod).map
    (fun k => a.data.getD (k * a.shape.getD (a.shape.length - 1) 1) 0)
  hlen := by simp

namespace SingleLabelSingleModalityd

/-- The record update of the label branch (lines 312–323): the label becomes
the indicator of `label > 0` and the label metadata is patched. -/
def labelPatch (r : RecD) : RecD :=
  { r with
    label := r.label.map (fun v => if 0 < v then 1 else 0)
    label_meta :=
      { pixdim := r.label_meta.pixdim.set 4 0
        dim := (r.label_meta.dim.set 0 3).set 4 1 } }

/-- The `key == "label"` branch of `SingleLabelSingleModalityd.__call__`
(lines 305–323), entered when the label has a value above 1. -/
def labelStep (r : RecD) : RecD :=
  if 1 < npMax r.label then labelPatch r else r

/-- The record update of the image branch (lines 333–337): keep the first
modality and patch the image metadata. -/
def imagePatch (r : RecD) : RecD :=
  { r with
    image := sliceLast0 r.image
    image_meta :=
      { pixdim := r.image_meta.pixdim.set 4 0
        dim := (r.image_meta.dim.set 0 3).set 4 1 } }

/-- The `key == "image"` branch (lines 325–337), entered when
`pixdim[4] > 0`. -/
def imageStep (r : RecD) : RecD :=
  if 0 < r.image_meta.pixdim.getD 4 0 then imagePatch r else r

/-- The body of the `for key in self.keys` loop: the two `if key == …`
branches in sequence. -/
def stepKey (k : String) (r : RecD) : RecD :=
  let r1 := if k = "label" then labelStep r else r
  if k = "image" then imageStep r1 else r1

/-- Embedding of `SingleLabelSingleModalityd.__call__` (lines 302–339). -/
def call (keys : List String) (r : RecD) : RecD :=
  keys.foldl (fun r k => stepKey k r) r

end SingleLabelSingleModalityd

/-- The common tail of the two `_apply` methods, factored over the already
computed `(pos, neg)` pair; each `applyG` equals `applyCore` of its own
`add_guidance` result definitionally. -/
def applyCore (g : GuidQ) (pn : Option (List ℚ) × Option (List ℚ)) (st : Flags) :
    GuidanceVal × Flags :=
  let gs :=
    if truthy pn.1 then
      ((g.1 ++ [pn.1.getD []],
        g.2 ++ [List.replicate (pn.1.getD []).length (-1 : ℚ)]),
       { st with is_pos := true })
    else (g, st)
  let gs :=
    if truthy pn.2 then
      ((gs.1.1 ++ [List.replicate (pn.2.getD []).length (-1 : ℚ)],
        gs.1.2 ++ [pn.2.getD []]),
       { gs.2 with is_neg := true })
    else gs
  (.jstr (truncGuid gs.1), gs.2)

/-- A sequence of `__call__` invocations on one transform instance, threading
the instance's mutable flags. -/
def runCalls {I O : Type} (step : I → Flags → O × Flags) :
    List I → Flags → List O
  | [], _ => []
  | i :: is, st => (step i st).1 :: runCalls step is (step i st).2

/-- The `(H, W, D)` dimensions of one channel of a volume. -/
def chShape (c : Channel) : ℕ × ℕ × ℕ :=
  (c.length, (c.getD 0 []).length, ((c.getD 0 []).getD 0 []).length)

/-- A concrete 1×3 discrepancy mask with a single positive voxel at
multi-index `[0, 1]`. -/
def mask013 : NDArr := ⟨[1, 3], [0, 1, 0], rfl⟩

/-- A concrete length-2 mask with no positive voxel. -/
def maskZero : NDArr := ⟨[2], [0, 0], rfl⟩

/-- A concrete stand-in for `np.exp` satisfying `1 ≤ x → 1 < expLin x`. -/
def expLin : ℚ → ℚ := fun x => x + 1

/-- A concrete 3-channel image of spatial dimensions 1×1×1. -/
def img3 : Image := [[[[5]]], [[[6]]], [[[7]]]]

/-- A concrete 1×3 weight map giving weight 2 to the positive voxel of
`mask013`. -/
def wmap121 : NDArr := ⟨[1, 3], [1, 2, 1], rfl⟩

lemma le_foldr_min {c init : ℚ} {l : List ℚ} (hi : c ≤ init)
    (hl : ∀ x ∈ l, c ≤ x) : c ≤ l.foldr min init := by
  induction l with
  | nil => exact hi
  | cons a t ih =>
    simp only [List.foldr_cons, le_min_iff]
    exact ⟨hl a (by simp), ih fun x hx => hl x (by simp [hx])⟩

lemma foldl_max_le {c init : ℚ} {l : List ℚ} (hi : init ≤ c)
    (hl : ∀ x ∈ l, x ≤ c) : l.foldl max init ≤ c := by
  induction l generalizing init with
  | nil => exact hi
  | cons a t ih =>
    simp only [List.foldl_cons]
    exact ih (max_le hi (hl a (by simp))) fun x hx => hl x (by simp [hx])

lemma getD_set_self {α : Type} (l : List α) (n : ℕ) (v : α) :
    (l.set n v).getD n v = v := by
  induction l generalizing n with
  | nil => simp [List.getD]
  | cons a t ih =>
    cases n with
    | zero => simp [List.set, List.getD]
    | succ m => simpa [List.set, List.getD] using ih m

lemma getD_map_lt (f : ℚ → ℚ) (l : List ℚ) {i : ℕ} (h : i < l.length)
    (d : ℚ) : (l.map f).getD i d = f (l.getD i 0) := by
  rw [List.getD_eq_getElem _ _ (by simpa using h), List.getD_eq_getElem _ _ h]
  simp

lemma sum_map_div {α : Type} (l : List α) (f : α → ℚ) (c : ℚ) :
    (l.map fun i => f i / c).sum = (l.map f).sum / c := by
  simp only [div_eq_mul_inv]
  exact List.sum_map_mul_right l f c⁻¹

lemma mem_posIndices {a : NDArr} {i : ℕ} (h : i ∈ posIndices a) :
    i < a.data.length ∧ 0 < a.data.getD i 0 := by
  simp only [posIndices, List.mem_filter, List.mem_range, decide_eq_true_eq] at h
  exact h

lemma posIndices_ne_nil_iff (a : NDArr) :
    posIndices a ≠ [] ↔ 0 < a.data.countP (fun x => decide (0 < x)) := by
  rw [List.countP_pos_iff]
  constructor
  · intro h
    obtain ⟨i, hi⟩ := List.exists_mem_of_ne_nil _ h
    obtain ⟨hlt, hpos⟩ := mem_posIndices hi
    refine ⟨a.data.getD i 0, ?_, by simpa using hpos⟩
    rw [List.getD_eq_getElem _ _ hlt]
    exact List.getElem_mem hlt
  · rintro ⟨x, hx, hpx⟩
    obtain ⟨i, hi, rfl⟩ := List.mem_iff_getElem.mp hx
    intro hnil
    have hmem : i ∈ posIndices a := by
      simp only [posIndices, List.mem_filter, List.mem_range, decide_eq_true_eq]
      refine ⟨hi, ?_⟩
      rw [List.getD_eq_getElem _ _ hi]
      simpa using hpx
    simp [hnil] at hmem

lemma length_cdt (a : NDArr) : (cdt a).length = a.data.length := by
  simp [cdt]

lemma cdt_getD {a : NDArr} {i : ℕ} (h : i < a.data.length) (d : ℚ) :
    (cdt a).getD i d = cdtAt a i := by
  rw [List.getD_eq_getElem _ _ (by simpa [length_cdt] using h)]
  simp [cdt]

lemma unravel_inj : ∀ (s : List ℕ) {k j : ℕ}, k < s.prod → j < s.prod →
    unravel s k = unravel s j → k = j := by
  intro s
  induction s with
  | nil =>
    intro k j hk hj _
    simp only [List.prod_nil, Nat.lt_one_iff] at hk hj
    omega
  | cons d rest ih =>
    intro k j hk hj h
    simp only [List.prod_cons] at hk hj
    have hp : 0 < rest.prod := by
      rcases Nat.eq_zero_or_pos rest.prod with h0 | h0
      · rw [h0, Nat.mul_zero] at hk; omega
      · exact h0
    simp only [unravel, List.cons.injEq] at h
    have hmod : k % rest.prod = j % rest.prod :=
      ih (Nat.mod_lt _ hp) (Nat.mod_lt _ hp) h.2
    calc k = rest.prod * (k / rest.prod) + k % rest.prod :=
          (Nat.div_add_mod k rest.prod).symm
      _ = rest.prod * (j / rest.prod) + j % rest.prod := by rw [h.1, hmod]
      _ = j := Nat.div_add_mod j rest.prod

lemma chebDist_eq_zero : ∀ (i j : List ℕ), i.length = j.length →
    chebDist i j = 0 → i = j := by
  intro i
  induction i with
  | nil =>
    intro j hl _
    simp only [List.length_nil] at hl
    exact (List.length_eq_zero.mp hl.symm).symm
  | cons a t ih =>
    intro j hl h
    cases j with
    | nil => simp at hl
    | cons b t' =>
      simp only [chebDist, List.zipWith_cons_cons, List.foldr_cons,
        Nat.max_eq_zero_iff] at h
      obtain ⟨hab, ht⟩ := h
      have hb : a = b := by omega
      have := ih t' (by simpa using hl) (by simpa [chebDist] using ht)
      simp [hb, this]

lemma length_unravel : ∀ (s : List ℕ) (k : ℕ), (unravel s k).length = s.length := by
  intro s
  induction s with
  | nil => intro k; simp [unravel]
  | cons d rest ih => intro k; simp [unravel, ih]

lemma one_le_cdtAt {a : NDArr} {k : ℕ} (hk : k < a.data.length)
    (h : 0 < a.data.getD k 0) : 1 ≤ cdtAt a k := by
  rw [cdtAt, if_neg (by exact ne_of_gt h)]
  refine le_foldr_min ?_ ?_
  · have : (0 : ℚ) ≤ (a.data.length : ℚ) := by positivity
    linarith
  · intro x hx
    simp only [List.mem_map] at hx
    obtain ⟨j, hj, rfl⟩ := hx
    simp only [bgIndices, List.mem_filter, List.mem_range,
      decide_eq_true_eq] at hj
    have hne : k ≠ j := by
      intro hkj
      rw [hkj, hj.2] at h
      exact lt_irrefl 0 h
    have hkp : k < a.shape.prod := by rw [← a.hlen]; exact hk
    have hjp : j < a.shape.prod := by rw [← a.hlen]; exact hj.1
    have hur : unravel a.shape k ≠ unravel a.shape j := by
      intro he
      exact hne (unravel_inj a.shape hkp hjp he)
    have hcd : chebDist (unravel a.shape k) (unravel a.shape j) ≠ 0 := by
      intro h0
      exact hur (chebDist_eq_zero _ _
        (by rw [length_unravel, length_unravel]) h0)
    have : 1 ≤ chebDist (unravel a.shape k) (unravel a.shape j) :=
      Nat.one_le_iff_ne_zero.mpr hcd
    exact_mod_cast this
lemma find_guidance_spec_eq (e : ℚ → ℚ) (mask : NDArr) (u : ℚ) :
    AddRandomGuidanced.find_guidance e mask none u =
      (specSelectSeed e mask u).map (seedPoint mask) := by
  by_cases hidx : posIndices mask = []
  · have hcnt : ¬ 0 < mask.data.countP (fun x => decide (0 < x)) := by
      rw [← posIndices_ne_nil_iff]
      simpa using hidx
    simp [AddRandomGuidanced.find_guidance, specSelectSeed, hidx, hcnt]
  · have hcnt : 0 < mask.data.countP (fun x => decide (0 < x)) :=
      (posIndices_ne_nil_iff mask).mp hidx
    have hinner : (posIndices mask).map
        (fun j => ((cdt mask).map (fun x => e x - 1)).getD j 0) =
        (posIndices mask).map (fun j => e ((cdt mask).getD j 0) - 1) := by
      apply List.map_congr_left
      intro j hj
      have hlt : j < (cdt mask).length := by
        rw [length_cdt]; exact (mem_posIndices hj).1
      exact getD_map_lt _ _ hlt 0
    simp only [AddRandomGuidanced.find_guidance, specSelectSeed,
      if_pos hcnt, if_neg hidx, Option.map_some']
    rw [hinner]
    have hws : (posIndices mask).map
        (fun i => ((cdt mask).map (fun x => e x - 1)).getD i 0 /
          ((posIndices mask).map (fun i => e ((cdt mask).getD i 0) - 1)).sum) =
        (posIndices mask).map (fun i => (e ((cdt mask).getD i 0) - 1) /
          ((posIndices mask).map (fun i => e ((cdt mask).getD i 0) - 1)).sum) := by
      apply List.map_congr_left
      intro i hi
      rw [getD_map_lt _ _ (by rw [length_cdt]; exact (mem_posIndices hi).1) 0]
    rw [hws]
    rfl

lemma pickIdx_lt : ∀ (ws : List ℚ) (u : ℚ), ws ≠ [] → pickIdx ws u < ws.length := by
  intro ws
  induction ws with
  | nil => intro u h; simp at h
  | cons w t ih =>
    intro u _
    cases t with
    | nil => simp [pickIdx]
    | cons w' t' =>
      have he : pickIdx (w :: w' :: t') u =
          if u < w then 0 else pickIdx (w' :: t') (u - w) + 1 := rfl
      rw [he]
      split
      · simp
      · have h2 := ih (u - w) (List.cons_ne_nil w' t')
        simp only [List.length_cons] at h2 ⊢
        omega

lemma npChoice_mem (items : List ℕ) (ws : List ℚ) (u : ℚ) (h : items ≠ [])
    (hl : ws.length = items.length) : npChoice items ws u ∈ items := by
  have hw : ws ≠ [] := by
    intro h0
    rw [h0] at hl
    exact h (List.length_eq_zero.mp hl.symm)
  have hlt : pickIdx ws u < items.length := by
    rw [← hl]; exact pickIdx_lt ws u hw
  rw [npChoice, List.getD_eq_getElem _ _ hlt]
  exact List.getElem_mem hlt

/-- C5: the two `find_guidance` implementations are extensionally equal: for
every discrepancy mask, weight map, exp model and random draw they return the
same result. -/
theorem find_guidance_two_impls_equal (e : ℚ → ℚ) (d : NDArr)
    (w : Option NDArr) (u : ℚ) :
    PosNegClickProbAddRandomGuidanced.find_guidance e d w u =
      AddRandomGuidanced.find_guidance e d w u := rfl

/-- C2 counterexample: on the mask `[[0, 1, 0]]` the only positive voxel is
flat index 1, whose multi-index in the mask's shape is `[0, 1]`; yet
`find_guidance` returns `[1, 1]` — component 0 is not the voxel's index. -/
theorem find_guidance_component_zero_cex :
    posIndices mask013 = [1]
    ∧ AddRandomGuidanced.find_guidance expLin mask013 none 0 = some [1, 1]
    ∧ unravel mask013.shape 1 = [0, 1]
    ∧ ([1, 1] : List ℚ) ≠ [0, 1] := by
  refine ⟨by decide, by with_unfolding_all rfl, by decide, ?_⟩
  intro hcontra
  exact absurd (List.head_eq_of_cons_eq hcontra) (by norm_num)

lemma getD_set_ne {α : Type} (l : List α) {i n : ℕ} (h : i ≠ n) (v d : α) :
    (l.set n v).getD i d = l.getD i d := by
  induction l generalizing i n with
  | nil => simp
  | cons a t ih =>
    cases n with
    | zero =>
      cases i with
      | zero => exact absurd rfl h
      | succ m => simp [List.set, List.getD]
    | succ m =>
      cases i with
      | zero => simp [List.set, List.getD]
      | succ m' => simpa [List.set, List.getD] using ih (fun he => h (by omega))

lemma getD_map_cast (l : List ℕ) (i : ℕ) :
    (List.map (fun (n : ℕ) => (n : ℚ)) l).getD i 0 = ((l.getD i 0 : ℕ) : ℚ) := by
  by_cases h : i < l.length
  · have h2 : i < (List.map (fun (n : ℕ) => (n : ℚ)) l).length := by
      rw [List.length_map]; exact h
    rw [List.getD_eq_getElem _ _ h2, List.getD_eq_getElem _ _ h,
      List.getElem_map]
  · have h2 : (List.map (fun (n : ℕ) => (n : ℚ)) l).length ≤ i := by
      rw [List.length_map]; omega
    rw [List.getD_eq_default _ _ h2, List.getD_eq_default _ _ (by omega)]
    norm_num

/-- C2 amended: for any weight map, when the mask has a positive voxel
`find_guidance` returns the unraveled multi-index of the sampled seed with
component 0 overwritten by the weighted distance at the seed
(`g[0] = dst[0]`); components other than 0 are the seed voxel's indices. -/
theorem find_guidance_point_structure (e : ℚ → ℚ) (mask : NDArr)
    (wm : Option NDArr) (u : ℚ) (h : posIndices mask ≠ []) :
    ∃ s, s ∈ posIndices mask ∧
      AddRandomGuidanced.find_guidance e mask wm u =
        some (seedPointW mask wm s) ∧
      (∀ i, i ≠ 0 → (seedPointW mask wm s).getD i 0 =
        ((unravel mask.shape s).getD i 0 : ℕ)) ∧
      (seedPointW mask wm s).getD 0 ((weightedDist mask wm).getD s 0) =
        (weightedDist mask wm).getD s 0 := by
  have hcnt : 0 < mask.data.countP (fun x => decide (0 < x)) :=
    (posIndices_ne_nil_iff mask).mp h
  refine ⟨npChoice (posIndices mask)
    ((posIndices mask).map (fun i =>
      ((weightedDist mask wm).map (fun x => e x - 1)).getD i 0 /
        ((posIndices mask).map (fun j =>
          ((weightedDist mask wm).map (fun x => e x - 1)).getD j 0)).sum)) u,
    ?_, ?_, ?_, ?_⟩
  · exact npChoice_mem _ _ _ h (by simp)
  · cases wm with
    | none =>
      simp only [AddRandomGuidanced.find_guidance, if_pos hcnt]
      rfl
    | some w =>
      simp only [AddRandomGuidanced.find_guidance, if_pos hcnt]
      rfl
  · intro i hi
    rw [seedPointW, getD_set_ne _ hi, getD_map_cast]
  · rw [seedPointW, getD_set_self]

/-- C3: with `weight_map = None` and at least one positive voxel, every index
of `idx` has chamfer distance ≥ 1, the per-voxel weight `exp(d) - 1` is
positive there, the normalising sum is strictly positive, and the probability
vector handed to `R.choice` is nonnegative and sums to 1. -/
theorem guidance_sampling_well_defined (e : ℚ → ℚ) (mask : NDArr)
    (hE : ∀ x : ℚ, 1 ≤ x → 1 < e x)
    (h : posIndices mask ≠ []) :
    (∀ i ∈ posIndices mask, 1 ≤ (cdt mask).getD i 0) ∧
    (∀ i ∈ posIndices mask,
      0 < ((cdt mask).map (fun x => e x - 1)).getD i 0) ∧
    0 < ((posIndices mask).map
      (fun j => ((cdt mask).map (fun x => e x - 1)).getD j 0)).sum ∧
    (∀ q ∈ (posIndices mask).map (fun i =>
        ((cdt mask).map (fun x => e x - 1)).getD i 0 /
          ((posIndices mask).map
            (fun j => ((cdt mask).map (fun x => e x - 1)).getD j 0)).sum),
      0 ≤ q) ∧
    ((posIndices mask).map (fun i =>
        ((cdt mask).map (fun x => e x - 1)).getD i 0 /
          ((posIndices mask).map
            (fun j => ((cdt mask).map (fun x => e x - 1)).getD j 0)).sum)).sum
      = 1 := by
  have hcdt : ∀ i ∈ posIndices mask, 1 ≤ (cdt mask).getD i 0 := by
    intro i hi
    obtain ⟨hlt, hpos⟩ := mem_posIndices hi
    rw [cdt_getD hlt]
    exact one_le_cdtAt hlt hpos
  have hP : ∀ i ∈ posIndices mask,
      0 < ((cdt mask).map (fun x => e x - 1)).getD i 0 := by
    intro i hi
    obtain ⟨hlt, _⟩ := mem_posIndices hi
    rw [getD_map_lt _ _ (by rw [length_cdt]; exact hlt) 0]
    have := hE _ (hcdt i hi)
    linarith
  have hsum : 0 < ((posIndices mask).map
      (fun j => ((cdt mask).map (fun x => e x - 1)).getD j 0)).sum := by
    apply List.sum_pos
    · intro x hx
      obtain ⟨i, hi, rfl⟩ := List.mem_map.mp hx
      exact hP i hi
    · simpa using h
  refine ⟨hcdt, hP, hsum, ?_, ?_⟩
  · intro q hq
    obtain ⟨i, hi, rfl⟩ := List.mem_map.mp hq
    exact div_nonneg (le_of_lt (hP i hi)) (le_of_lt hsum)
  · rw [sum_map_div]
    exact div_self (ne_of_gt hsum)

lemma runCalls_of_reset {I O : Type} (step : I → Flags → O × Flags)
    (h : ∀ i st, (step i st).2 = ⟨false, false⟩) :
    ∀ l : List I, runCalls step l ⟨false, false⟩ =
      l.map (fun i => (step i ⟨false, false⟩).1) := by
  intro l
  induction l with
  | nil => rfl
  | cons i t ih =>
    show (step i ⟨false, false⟩).1 :: runCalls step t (step i ⟨false, false⟩).2
      = _
    rw [h i, ih, List.map_cons]

/-- C4: after every `__call__` the instance flags are `False` again, so in a
sequence of calls on one instance each returned record depends only on that
call's input and random draws. -/
theorem guidance_transforms_stateless (e : ℚ → ℚ) (ρ : ℚ) (inp : CallInput)
    (st : Flags) (uI uC uS : ℚ)
    (l : List (CallInput × ℚ × ℚ)) (l2 : List (CallInput × ℚ × ℚ × ℚ)) :
    (AddRandomGuidanced.call e inp st uI uS).2 = ⟨false, false⟩ ∧
    (PosNegClickProbAddRandomGuidanced.call e ρ inp st uI uC uS).2
      = ⟨false, false⟩ ∧
    runCalls (fun x st => AddRandomGuidanced.call e x.1 st x.2.1 x.2.2) l
        ⟨false, false⟩ =
      l.map (fun x => (AddRandomGuidanced.call e x.1 ⟨false, false⟩
        x.2.1 x.2.2).1) ∧
    runCalls (fun x st => PosNegClickProbAddRandomGuidanced.call e ρ x.1 st
        x.2.1 x.2.2.1 x.2.2.2) l2 ⟨false, false⟩ =
      l2.map (fun x => (PosNegClickProbAddRandomGuidanced.call e ρ x.1
        ⟨false, false⟩ x.2.1 x.2.2.1 x.2.2.2).1) :=
  ⟨rfl, rfl, runCalls_of_reset _ (fun _ _ => rfl) l,
    runCalls_of_reset _ (fun _ _ => rfl) l2⟩

lemma arg_add_guidance_has_none (e : ℚ → ℚ) (dsc : NDArr × NDArr)
    (wm : Option NDArr) (wi : Bool) (u : ℚ) :
    (AddRandomGuidanced.add_guidance e dsc wm wi u).1 = none ∨
    (AddRandomGuidanced.add_guidance e dsc wm wi u).2 = none := by
  simp only [AddRandomGuidanced.add_guidance]
  split
  · exact Or.inl rfl
  split
  · exact Or.inr rfl
  split
  · exact Or.inl rfl
  · exact Or.inl rfl

lemma pn_add_guidance_has_none (e : ℚ → ℚ) (ρ : ℚ) (dsc : NDArr × NDArr)
    (wm : Option NDArr) (wi : Bool) (uC u : ℚ) :
    (PosNegClickProbAddRandomGuidanced.add_guidance e ρ dsc wm wi uC u).1
      = none ∨
    (PosNegClickProbAddRandomGuidanced.add_guidance e ρ dsc wm wi uC u).2
      = none := by
  simp only [PosNegClickProbAddRandomGuidanced.add_guidance]
  split
  · exact Or.inl rfl
  split
  · exact Or.inr rfl
  split
  · exact Or.inl rfl
  split
  · exact Or.inr rfl
  split
  · exact Or.inl rfl
  · exact Or.inl rfl

lemma arg_applyG_eq_core (e : ℚ → ℚ) (gv : GuidanceVal) (dsc : NDArr × NDArr)
    (wm : Option NDArr) (wi : Bool) (u : ℚ) (st : Flags) :
    AddRandomGuidanced.applyG e gv dsc wm wi u st =
      applyCore (decodeGuidance gv)
        (AddRandomGuidanced.add_guidance e dsc wm wi u) st := rfl

lemma pn_applyG_eq_core (e : ℚ → ℚ) (ρ : ℚ) (gv : GuidanceVal)
    (dsc : NDArr × NDArr) (wm : Option NDArr) (wi : Bool) (uC u : ℚ)
    (st : Flags) :
    PosNegClickProbAddRandomGuidanced.applyG e ρ gv dsc wm wi uC u st =
      applyCore (decodeGuidance gv)
        (PosNegClickProbAddRandomGuidanced.add_guidance e ρ dsc wm wi uC u)
        st := rfl

lemma truthy_none : truthy none = false := rfl

lemma applyCore_flags (g : GuidQ) (pn : Option (List ℚ) × Option (List ℚ))
    (hpn : pn.1 = none ∨ pn.2 = none) :
    ¬((applyCore g pn ⟨false, false⟩).2.is_pos = true ∧
      (applyCore g pn ⟨false, false⟩).2.is_neg = true) := by
  rcases hpn with h | h
  · by_cases h2 : truthy pn.2 = true <;>
      simp [applyCore, h, truthy_none, h2]
  · by_cases h1 : truthy pn.1 = true <;>
      simp [applyCore, h, truthy_none, h1]

lemma applyCore_mirror (g : GuidQ) (pn : Option (List ℚ) × Option (List ℚ))
    (hpn : pn.1 = none ∨ pn.2 = none) (st : Flags) :
    ∃ a b : List (List ℚ),
      (applyCore g pn st).1 = .jstr (truncGuid (g.1 ++ a, g.2 ++ b)) ∧
      a.length = b.length ∧
      ((a = [] ∧ b = []) ∨
        (∃ p, a = [p] ∧ b = [List.replicate p.length (-1)]) ∨
        (∃ q, a = [List.replicate q.length (-1)] ∧ b = [q])) := by
  rcases hpn with h | h
  · by_cases h2 : truthy pn.2 = true
    · refine ⟨[List.replicate (pn.2.getD []).length (-1)], [pn.2.getD []],
        ?_, by simp, Or.inr (Or.inr ⟨pn.2.getD [], rfl, rfl⟩)⟩
      simp [applyCore, h, truthy_none, h2]
    · refine ⟨[], [], ?_, rfl, Or.inl ⟨rfl, rfl⟩⟩
      simp [applyCore, h, truthy_none, h2]
  · by_cases h1 : truthy pn.1 = true
    · refine ⟨[pn.1.getD []], [List.replicate (pn.1.getD []).length (-1)],
        ?_, by simp, Or.inr (Or.inl ⟨pn.1.getD [], rfl, rfl⟩)⟩
      simp [applyCore, h, truthy_none, h1]
    · refine ⟨[], [], ?_, rfl, Or.inl ⟨rfl, rfl⟩⟩
      simp [applyCore, h, truthy_none, h1]

/-- C8: `add_guidance` always returns `None` in at least one component, and
after a `__call__` (from the reset flag state) `is_pos` and `is_neg` are never
both `True`, for both transform classes. -/
theorem at_most_one_guidance_point (e : ℚ → ℚ) (ρ : ℚ) (dsc : NDArr × NDArr)
    (wm : Option NDArr) (wi : Bool) (u uC uI uS : ℚ) (inp : CallInput) :
    ((AddRandomGuidanced.add_guidance e dsc wm wi u).1 = none ∨
      (AddRandomGuidanced.add_guidance e dsc wm wi u).2 = none) ∧
    ((PosNegClickProbAddRandomGuidanced.add_guidance e ρ dsc wm wi uC u).1
        = none ∨
      (PosNegClickProbAddRandomGuidanced.add_guidance e ρ dsc wm wi uC u).2
        = none) ∧
    ¬((AddRandomGuidanced.call e inp ⟨false, false⟩ uI uS).1.is_pos = true ∧
      (AddRandomGuidanced.call e inp ⟨false, false⟩ uI uS).1.is_neg = true) ∧
    ¬((PosNegClickProbAddRandomGuidanced.call e ρ inp ⟨false, false⟩
        uI uC uS).1.is_pos = true ∧
      (PosNegClickProbAddRandomGuidanced.call e ρ inp ⟨false, false⟩
        uI uC uS).1.is_neg = true) :=
  ⟨arg_add_guidance_has_none e dsc wm wi u,
   pn_add_guidance_has_none e ρ dsc wm wi uC u,
   applyCore_flags _ _ (arg_add_guidance_has_none e inp.discrepancy
     inp.weight_map (npBoolChoice inp.probability uI) uS),
   applyCore_flags _ _ (pn_add_guidance_has_none e ρ inp.discrepancy
     inp.weight_map (npBoolChoice inp.probability uI) uC uS)⟩

/-- C9: `_apply` preserves the parallel structure of the guidance: whatever
gets appended is either nothing, or a positive point mirrored by a sentinel
`[-1, …, -1]` of the same dimension in the negative list, or vice versa; two
equal-length lists stay equal-length. -/
theorem apply_preserves_guidance_pairing (e : ℚ → ℚ) (ρ : ℚ)
    (gv : GuidanceVal) (dsc : NDArr × NDArr)
    (wm : Option NDArr) (wi : Bool) (uC u : ℚ) (st : Flags)
    (h : (decodeGuidance gv).1.length = (decodeGuidance gv).2.length) :
    (∃ a b : List (List ℚ),
      (AddRandomGuidanced.applyG e gv dsc wm wi u st).1 =
        .jstr (truncGuid ((decodeGuidance gv).1 ++ a,
          (decodeGuidance gv).2 ++ b)) ∧
      a.length = b.length ∧
      ((a = [] ∧ b = []) ∨
        (∃ p, a = [p] ∧ b = [List.replicate p.length (-1)]) ∨
        (∃ q, a = [List.replicate q.length (-1)] ∧ b = [q])) ∧
      ((decodeGuidance gv).1 ++ a).length
        = ((decodeGuidance gv).2 ++ b).length) ∧
    (∃ a b : List (List ℚ),
      (PosNegClickProbAddRandomGuidanced.applyG e ρ gv dsc wm wi uC u st).1 =
        .jstr (truncGuid ((decodeGuidance gv).1 ++ a,
          (decodeGuidance gv).2 ++ b)) ∧
      a.length = b.length ∧
      ((a = [] ∧ b = []) ∨
        (∃ p, a = [p] ∧ b = [List.replicate p.length (-1)]) ∨
        (∃ q, a = [List.replicate q.length (-1)] ∧ b = [q])) ∧
      ((decodeGuidance gv).1 ++ a).length
        = ((decodeGuidance gv).2 ++ b).length) := by
  constructor
  · obtain ⟨a, b, hout, hlen, hcases⟩ := applyCore_mirror (decodeGuidance gv)
      (AddRandomGuidanced.add_guidance e dsc wm wi u)
      (arg_add_guidance_has_none e dsc wm wi u) st
    exact ⟨a, b, hout, hlen, hcases, by simp [h, hlen]⟩
  · obtain ⟨a, b, hout, hlen, hcases⟩ := applyCore_mirror (decodeGuidance gv)
      (PosNegClickProbAddRandomGuidanced.add_guidance e ρ dsc wm wi uC u)
      (pn_add_guidance_has_none e ρ dsc wm wi uC u) st
    exact ⟨a, b, hout, hlen, hcases, by simp [h, hlen]⟩

/-- C10: whatever the type of the incoming guidance value (array, JSON
string, or list), `_apply` — and hence the guidance entry written by
`__call__` — is a JSON string encoding an integer array, each component
truncated toward zero. -/
theorem apply_returns_json_integer_string (e : ℚ → ℚ) (ρ : ℚ)
    (gv : GuidanceVal) (dsc : NDArr × NDArr)
    (wm : Option NDArr) (wi : Bool) (uC u uI uS : ℚ) (st : Flags)
    (inp : CallInput) :
    (∃ q : GuidQ, (AddRandomGuidanced.applyG e gv dsc wm wi u st).1 =
      .jstr (truncGuid q)) ∧
    (∃ q : GuidQ,
      (PosNegClickProbAddRandomGuidanced.applyG e ρ gv dsc wm wi uC u st).1 =
        .jstr (truncGuid q)) ∧
    (∃ q : GuidQ, (AddRandomGuidanced.call e inp st uI uS).1.guidance =
      .jstr (truncGuid q)) ∧
    (∃ q : GuidQ,
      (PosNegClickProbAddRandomGuidanced.call e ρ inp st uI uC uS).1.guidance
        = .jstr (truncGuid q)) :=
  ⟨⟨_, rfl⟩, ⟨_, rfl⟩, ⟨_, rfl⟩, ⟨_, rfl⟩⟩

lemma getD_set_lt {α : Type} (l : List α) {n : ℕ} (h : n < l.length)
    (v d : α) : (l.set n v).getD n d = v := by
  rw [List.getD_eq_getElem _ _ (by simpa using h)]
  simp [List.getElem_set]

lemma getD_replicate_pos {α : Type} {h : ℕ} (hh : 0 < h) (x d : α) :
    (List.replicate h x).getD 0 d = x := by
  cases h with
  | zero => omega
  | succ m => rfl

lemma zeroCh_chShape (h w d : ℕ) (hh : 0 < h) (hw : 0 < w) :
    chShape (zeroCh h w d) = (h, w, d) := by
  rw [chShape, zeroCh]
  rw [getD_replicate_pos hh, getD_replicate_pos hw]
  simp

/-- C6: with `discard_probability ≥ 1` the discard is deterministic: an image
with `number_intensity_ch + 2` channels has channels `nich` and `nich+1`
replaced by all-zero channels with the shape unchanged; any other image gets
two all-zero channels appended along axis 0, spatial dimensions unchanged. -/
theorem discard_add_guidance_deterministic (nich : ℕ) (p : ℚ) (rnd : Bool)
    (img : Image) (hp : 1 ≤ p) :
    (img.length = nich + 2 →
      (DiscardAddGuidanced.applyD nich p rnd img).length = img.length ∧
      (DiscardAddGuidanced.applyD nich p rnd img).getD nich [] =
        zeroCh (DiscardAddGuidanced.imgH img) (DiscardAddGuidanced.imgW img)
          (DiscardAddGuidanced.imgD img) ∧
      (DiscardAddGuidanced.applyD nich p rnd img).getD (nich + 1) [] =
        zeroCh (DiscardAddGuidanced.imgH img) (DiscardAddGuidanced.imgW img)
          (DiscardAddGuidanced.imgD img) ∧
      (∀ i, i ≠ nich → i ≠ nich + 1 →
        (DiscardAddGuidanced.applyD nich p rnd img).getD i [] =
          img.getD i [])) ∧
    (img.length ≠ nich + 2 →
      DiscardAddGuidanced.applyD nich p rnd img = img ++
        [zeroCh (DiscardAddGuidanced.imgH img) (DiscardAddGuidanced.imgW img)
          (DiscardAddGuidanced.imgD img),
         zeroCh (DiscardAddGuidanced.imgH img) (DiscardAddGuidanced.imgW img)
          (DiscardAddGuidanced.imgD img)] ∧
      (DiscardAddGuidanced.applyD nich p rnd img).length = img.length + 2) ∧
    ((∀ ch ∈ img, chShape ch = (DiscardAddGuidanced.imgH img,
        DiscardAddGuidanced.imgW img, DiscardAddGuidanced.imgD img)) →
      0 < DiscardAddGuidanced.imgH img → 0 < DiscardAddGuidanced.imgW img →
      ∀ ch ∈ DiscardAddGuidanced.applyD nich p rnd img,
        chShape ch = (DiscardAddGuidanced.imgH img,
          DiscardAddGuidanced.imgW img, DiscardAddGuidanced.imgD img)) := by
  have hcond : (decide (1 ≤ p) || rnd) = true := by simp [hp]
  refine ⟨?_, ?_, ?_⟩
  · intro hl
    rw [DiscardAddGuidanced.applyD, if_pos hcond, if_pos hl]
    refine ⟨by simp [List.length_set], ?_, ?_, ?_⟩
    · rw [getD_set_ne _ (by omega), getD_set_lt _ (by omega)]
    · rw [getD_set_lt _ (by simp [List.length_set]; omega)]
    · intro i hi1 hi2
      rw [getD_set_ne _ hi2, getD_set_ne _ hi1]
  · intro hl
    rw [DiscardAddGuidanced.applyD, if_pos hcond, if_neg hl]
    exact ⟨rfl, by simp⟩
  · intro hrect hH hW
    intro ch hch
    rw [DiscardAddGuidanced.applyD, if_pos hcond] at hch
    by_cases hl : img.length = nich + 2
    · rw [if_pos hl] at hch
      rcases List.mem_or_eq_of_mem_set hch with hch2 | hch2
      · rcases List.mem_or_eq_of_mem_set hch2 with hch3 | hch3
        · exact hrect ch hch3
        · rw [hch3]; exact zeroCh_chShape _ _ _ hH hW
      · rw [hch2]; exact zeroCh_chShape _ _ _ hH hW
    · rw [if_neg hl] at hch
      rcases List.mem_append.mp hch with hch2 | hch2
      · exact hrect ch hch2
      · simp only [List.mem_cons, List.not_mem_nil, or_false] at hch2
        rcases hch2 with h1 | h1 <;>
          (rw [h1]; exact zeroCh_chShape _ _ _ hH hW)


lemma npMax_indicator_le_one (l : List ℚ) :
    npMax (l.map (fun v => if 0 < v then (1 : ℚ) else 0)) ≤ 1 := by
  apply foldl_max_le
  · cases l with
    | nil => norm_num [List.headD]
    | cons a t =>
      show (if 0 < a then (1 : ℚ) else 0) ≤ 1
      split <;> norm_num
  · intro x hx
    obtain ⟨v, _, rfl⟩ := List.mem_map.mp hx
    split <;> norm_num

lemma labelStep_pos {r : RecD} (h : 1 < npMax r.label) :
    SingleLabelSingleModalityd.labelStep r =
      SingleLabelSingleModalityd.labelPatch r := by
  rw [SingleLabelSingleModalityd.labelStep, if_pos h]

lemma labelStep_neg {r : RecD} (h : ¬ 1 < npMax r.label) :
    SingleLabelSingleModalityd.labelStep r = r := by
  rw [SingleLabelSingleModalityd.labelStep, if_neg h]

lemma imageStep_pos {r : RecD} (h : 0 < r.image_meta.pixdim.getD 4 0) :
    SingleLabelSingleModalityd.imageStep r =
      SingleLabelSingleModalityd.imagePatch r := by
  rw [SingleLabelSingleModalityd.imageStep, if_pos h]

lemma imageStep_neg {r : RecD} (h : ¬ 0 < r.image_meta.pixdim.getD 4 0) :
    SingleLabelSingleModalityd.imageStep r = r := by
  rw [SingleLabelSingleModalityd.imageStep, if_neg h]

lemma labelStep_idem (r : RecD) :
    SingleLabelSingleModalityd.labelStep
      (SingleLabelSingleModalityd.labelStep r) =
      SingleLabelSingleModalityd.labelStep r := by
  by_cases h : 1 < npMax r.label
  · rw [labelStep_pos h]
    exact labelStep_neg (not_lt.mpr (npMax_indicator_le_one r.label))
  · rw [labelStep_neg h, labelStep_neg h]

lemma imageStep_idem (r : RecD) :
    SingleLabelSingleModalityd.imageStep
      (SingleLabelSingleModalityd.imageStep r) =
      SingleLabelSingleModalityd.imageStep r := by
  by_cases h : 0 < r.image_meta.pixdim.getD 4 0
  · rw [imageStep_pos h]
    exact imageStep_neg
      (not_lt.mpr (le_of_eq (getD_set_self r.image_meta.pixdim 4 0)))
  · rw [imageStep_neg h, imageStep_neg h]

lemma label_image_comm (r : RecD) :
    SingleLabelSingleModalityd.labelStep
      (SingleLabelSingleModalityd.imageStep r) =
      SingleLabelSingleModalityd.imageStep
        (SingleLabelSingleModalityd.labelStep r) := by
  by_cases h1 : 1 < npMax r.label <;>
    by_cases h2 : 0 < r.image_meta.pixdim.getD 4 0
  · rw [imageStep_pos h2, labelStep_pos h1,
      labelStep_pos (show 1 <
        npMax (SingleLabelSingleModalityd.imagePatch r).label from h1),
      imageStep_pos (show 0 <
        (SingleLabelSingleModalityd.labelPatch r).image_meta.pixdim.getD 4 0
        from h2)]
    rfl
  · rw [imageStep_neg h2, labelStep_pos h1,
      imageStep_neg (show ¬ 0 <
        (SingleLabelSingleModalityd.labelPatch r).image_meta.pixdim.getD 4 0
        from h2)]
  · rw [imageStep_pos h2, labelStep_neg h1,
      labelStep_neg (show ¬ 1 <
        npMax (SingleLabelSingleModalityd.imagePatch r).label from h1),
      imageStep_pos h2]
  · rw [imageStep_neg h2, labelStep_neg h1, imageStep_neg h2]

lemma stepKey_eq_label (r : RecD) :
    SingleLabelSingleModalityd.stepKey "label" r =
      SingleLabelSingleModalityd.labelStep r := by
  simp [SingleLabelSingleModalityd.stepKey]

lemma stepKey_eq_image (r : RecD) :
    SingleLabelSingleModalityd.stepKey "image" r =
      SingleLabelSingleModalityd.imageStep r := by
  simp [SingleLabelSingleModalityd.stepKey]

lemma stepKey_eq_other {k : String} (h1 : k ≠ "label") (h2 : k ≠ "image")
    (r : RecD) : SingleLabelSingleModalityd.stepKey k r = r := by
  simp [SingleLabelSingleModalityd.stepKey, h1, h2]

lemma stepKey_chars (k : String) :
    (∀ r, SingleLabelSingleModalityd.stepKey k r =
      SingleLabelSingleModalityd.labelStep r) ∨
    (∀ r, SingleLabelSingleModalityd.stepKey k r =
      SingleLabelSingleModalityd.imageStep r) ∨
    (∀ r, SingleLabelSingleModalityd.stepKey k r = r) := by
  by_cases h1 : k = "label"
  · subst h1
    exact Or.inl fun r => stepKey_eq_label r
  by_cases h2 : k = "image"
  · subst h2
    exact Or.inr (Or.inl fun r => stepKey_eq_image r)
  · exact Or.inr (Or.inr fun r => stepKey_eq_other h1 h2 r)

lemma stepKey_idem (k : String) (r : RecD) :
    SingleLabelSingleModalityd.stepKey k
      (SingleLabelSingleModalityd.stepKey k r) =
      SingleLabelSingleModalityd.stepKey k r := by
  rcases stepKey_chars k with ha | ha | ha <;>
    simp [ha, labelStep_idem, imageStep_idem]

lemma stepKey_comm (k k' : String) (r : RecD) :
    SingleLabelSingleModalityd.stepKey k
      (SingleLabelSingleModalityd.stepKey k' r) =
      SingleLabelSingleModalityd.stepKey k'
        (SingleLabelSingleModalityd.stepKey k r) := by
  rcases stepKey_chars k with ha | ha | ha <;>
    rcases stepKey_chars k' with hb | hb | hb <;>
      simp [ha, hb, label_image_comm]

lemma stepKey_call_comm (ks : List String) (k : String) (r : RecD) :
    SingleLabelSingleModalityd.stepKey k
      (SingleLabelSingleModalityd.call ks r) =
      SingleLabelSingleModalityd.call ks
        (SingleLabelSingleModalityd.stepKey k r) := by
  induction ks generalizing r with
  | nil => rfl
  | cons k' t ih =>
    show SingleLabelSingleModalityd.stepKey k
        (SingleLabelSingleModalityd.call t
          (SingleLabelSingleModalityd.stepKey k' r)) =
      SingleLabelSingleModalityd.call t
        (SingleLabelSingleModalityd.stepKey k'
          (SingleLabelSingleModalityd.stepKey k r))
    rw [ih, stepKey_comm]

/-- C7: `SingleLabelSingleModalityd` is idempotent: applying the transform
twice to any record yields the same record as applying it once. -/
theorem single_label_single_modality_idempotent (keys : List String)
    (r : RecD) :
    SingleLabelSingleModalityd.call keys
      (SingleLabelSingleModalityd.call keys r) =
      SingleLabelSingleModalityd.call keys r := by
  induction keys generalizing r with
  | nil => rfl
  | cons k t ih =>
    show SingleLabelSingleModalityd.call t
        (SingleLabelSingleModalityd.stepKey k
          (SingleLabelSingleModalityd.call t
            (SingleLabelSingleModalityd.stepKey k r))) =
      SingleLabelSingleModalityd.call t
        (SingleLabelSingleModalityd.stepKey k r)
    rw [stepKey_call_comm, stepKey_idem, ih]

/-- C1: with `weight_map = None`, `find_guidance` selects its seed exactly by
the spec's three steps — chamfer distance transform, `exp(distance) - 1`
reweighting, and one draw over the positions where the flattened mask is
positive with that weight normalised there — and returns `None` when the mask
has no positive voxel. -/
theorem find_guidance_three_steps (e : ℚ → ℚ) (mask : NDArr) (u : ℚ) :
    AddRandomGuidanced.find_guidance e mask none u =
      (specSelectSeed e mask u).map (seedPoint mask) ∧
    (posIndices mask = [] →
      AddRandomGuidanced.find_guidance e mask none u = none) := by
  refine ⟨find_guidance_spec_eq e mask u, ?_⟩
  intro h0
  rw [find_guidance_spec_eq e mask u, specSelectSeed]
  simp [h0]

/-- Witness for C1 at a mask with no positive voxel. -/
theorem find_guidance_three_steps_witness :
    posIndices maskZero = [] ∧
    AddRandomGuidanced.find_guidance expLin maskZero none 0 = none :=
  ⟨by decide, (find_guidance_three_steps expLin maskZero 0).2 (by decide)⟩

/-- Witness for C2's amended statement on the mask `[[0, 1, 0]]` with the
weight map `[[1, 2, 1]]`. -/
theorem find_guidance_point_structure_witness :
    ∃ s, s ∈ posIndices mask013 ∧
      AddRandomGuidanced.find_guidance expLin mask013 (some wmap121) 0 =
        some (seedPointW mask013 (some wmap121) s) ∧
      (∀ i, i ≠ 0 → (seedPointW mask013 (some wmap121) s).getD i 0 =
        ((unravel mask013.shape s).getD i 0 : ℕ)) ∧
      (seedPointW mask013 (some wmap121) s).getD 0
          ((weightedDist mask013 (some wmap121)).getD s 0) =
        (weightedDist mask013 (some wmap121)).getD s 0 :=
  find_guidance_point_structure expLin mask013 (some wmap121) 0 (by decide)

/-- Witness for C3 on the mask `[[0, 1, 0]]` with the exp model `expLin`. -/
theorem guidance_sampling_well_defined_witness :
    (∀ x : ℚ, 1 ≤ x → 1 < expLin x) ∧ posIndices mask013 ≠ [] ∧
    ((∀ i ∈ posIndices mask013, 1 ≤ (cdt mask013).getD i 0) ∧
    (∀ i ∈ posIndices mask013,
      0 < ((cdt mask013).map (fun x => expLin x - 1)).getD i 0) ∧
    0 < ((posIndices mask013).map
      (fun j => ((cdt mask013).map (fun x => expLin x - 1)).getD j 0)).sum ∧
    (∀ q ∈ (posIndices mask013).map (fun i =>
        ((cdt mask013).map (fun x => expLin x - 1)).getD i 0 /
          ((posIndices mask013).map
            (fun j => ((cdt mask013).map
              (fun x => expLin x - 1)).getD j 0)).sum),
      0 ≤ q) ∧
    ((posIndices mask013).map (fun i =>
        ((cdt mask013).map (fun x => expLin x - 1)).getD i 0 /
          ((posIndices mask013).map
            (fun j => ((cdt mask013).map
              (fun x => expLin x - 1)).getD j 0)).sum)).sum
      = 1) :=
  ⟨fun x hx => show (1 : ℚ) < x + 1 by linarith, by decide,
   guidance_sampling_well_defined expLin mask013
     (fun x hx => show (1 : ℚ) < x + 1 by linarith) (by decide)⟩

/-- Witness for C6: a 3-channel 1×1×1 image with `number_intensity_ch = 1`
and `discard_probability = 1`. -/
theorem discard_add_guidance_deterministic_witness :
    (1 : ℚ) ≤ 1 ∧
    ((img3.length = 1 + 2 →
      (DiscardAddGuidanced.applyD 1 1 false img3).length = img3.length ∧
      (DiscardAddGuidanced.applyD 1 1 false img3).getD 1 [] =
        zeroCh (DiscardAddGuidanced.imgH img3) (DiscardAddGuidanced.imgW img3)
          (DiscardAddGuidanced.imgD img3) ∧
      (DiscardAddGuidanced.applyD 1 1 false img3).getD (1 + 1) [] =
        zeroCh (DiscardAddGuidanced.imgH img3) (DiscardAddGuidanced.imgW img3)
          (DiscardAddGuidanced.imgD img3) ∧
      (∀ i, i ≠ 1 → i ≠ 1 + 1 →
        (DiscardAddGuidanced.applyD 1 1 false img3).getD i [] =
          img3.getD i [])) ∧
    (img3.length ≠ 1 + 2 →
      DiscardAddGuidanced.applyD 1 1 false img3 = img3 ++
        [zeroCh (DiscardAddGuidanced.imgH img3) (DiscardAddGuidanced.imgW img3)
          (DiscardAddGuidanced.imgD img3),
         zeroCh (DiscardAddGuidanced.imgH img3) (DiscardAddGuidanced.imgW img3)
          (DiscardAddGuidanced.imgD img3)] ∧
      (DiscardAddGuidanced.applyD 1 1 false img3).length = img3.length + 2) ∧
    ((∀ ch ∈ img3, chShape ch = (DiscardAddGuidanced.imgH img3,
        DiscardAddGuidanced.imgW img3, DiscardAddGuidanced.imgD img3)) →
      0 < DiscardAddGuidanced.imgH img3 → 0 < DiscardAddGuidanced.imgW img3 →
      ∀ ch ∈ DiscardAddGuidanced.applyD 1 1 false img3,
        chShape ch = (DiscardAddGuidanced.imgH img3,
          DiscardAddGuidanced.imgW img3, DiscardAddGuidanced.imgD img3))) :=
  ⟨le_refl 1, discard_add_guidance_deterministic 1 1 false img3 (le_refl 1)⟩

/-- Witness for C9 at an empty guidance pair. -/
theorem apply_preserves_guidance_pairing_witness :
    (∃ a b : List (List ℚ),
      (AddRandomGuidanced.applyG expLin (GuidanceVal.lst ([], []))
          (mask013, mask013) none true 0 ⟨false, false⟩).1 =
        .jstr (truncGuid ((decodeGuidance (GuidanceVal.lst ([], []))).1 ++ a,
          (decodeGuidance (GuidanceVal.lst ([], []))).2 ++ b)) ∧
      a.length = b.length ∧
      ((a = [] ∧ b = []) ∨
        (∃ p, a = [p] ∧ b = [List.replicate p.length (-1)]) ∨
        (∃ q, a = [List.replicate q.length (-1)] ∧ b = [q])) ∧
      ((decodeGuidance (GuidanceVal.lst ([], []))).1 ++ a).length
        = ((decodeGuidance (GuidanceVal.lst ([], []))).2 ++ b).length) ∧
    (∃ a b : List (List ℚ),
      (PosNegClickProbAddRandomGuidanced.applyG expLin (1/2)
          (GuidanceVal.lst ([], [])) (mask013, mask013) none true 0 0
          ⟨false, false⟩).1 =
        .jstr (truncGuid ((decodeGuidance (GuidanceVal.lst ([], []))).1 ++ a,
          (decodeGuidance (GuidanceVal.lst ([], []))).2 ++ b)) ∧
      a.length = b.length ∧
      ((a = [] ∧ b = []) ∨
        (∃ p, a = [p] ∧ b = [List.replicate p.length (-1)]) ∨
        (∃ q, a = [List.replicate q.length (-1)] ∧ b = [q])) ∧
      ((decodeGuidance (GuidanceVal.lst ([], []))).1 ++ a).length
        = ((decodeGuidance (GuidanceVal.lst ([], []))).2 ++ b).length) :=
  apply_preserves_guidance_pairing expLin (1/2) (GuidanceVal.lst ([], []))
    (mask013, mask013) none true 0 0 ⟨false, false⟩ rfl
